import Mathlib

/-!
Verification of the StellarFrp migration script (`mysql.py`).

The script's mutating core is embedded shallowly:

* the two relational stores become Lean lists of records;
* timestamps become naturals (the script only compares them and copies
  them around), SQL `NULL` becomes `Option.none`;
* the per-row body of `migrate_users` (lines 39-137 of `mysql.py`)
  becomes `processUser`, folded over the legacy rows by `reconcileLoop`;
* the Python local variable `group_time` is threaded explicitly as an
  `Option (Option Nat)` state: `none` models the variable being unbound
  (referencing it raises `UnboundLocalError`), `some g` models it holding
  the value `g`;
* the `try/except/rollback/commit` wrapper of `migrate_users`
  (lines 33-156) becomes `migrate_users`, which returns the initial store
  untouched together with the error whenever the body fails;
* `clean_specific_tokens` (lines 158-178) becomes a pure pass over the
  target rows;
* the per-node body of `consolidate_node_traffic` (lines 194-261) becomes
  `consolidate_node_traffic` acting on one entity name.
-/

/-- A non-NULL value read from the legacy store's `VIPTime` column: either a
genuine datetime (timestamps are modelled as naturals) or a value of some
other runtime type, for which `isinstance(vip_time, datetime)` is false. -/
inductive DBVal where
  | dt (t : Nat)
  | nonDt
  deriving DecidableEq

/-- A row of the legacy `users` table (source store).  `none` models an
absent or SQL-NULL value wherever the script supplies a default for it. -/
structure LegacyUser where
  username : String
  type : Option String
  VIPTime : Option DBVal
  is_verified : Option Int
  password : Option String
  email : Option String
  encrypted_identity_info : Option String
  auth_count : Option Int
  created_at : Option Nat
  deriving DecidableEq

/-- A row of the target `users` table. -/
structure TargetUser where
  username : String
  password : String
  email : String
  register_time : Nat
  group_id : Nat
  is_verified : Int
  verify_info : String
  verify_count : Int
  status : Nat
  created_at : Nat
  updated_at : Nat
  group_time : Option Nat
  token : Option String
  tunnel_count : Int
  bandwidth : Int
  traffic_quota : Int
  checkin_count : Int
  continuity_checkin : Int
  deriving DecidableEq

/-- Lines 40-62 of `migrate_users`: compute `group_id` and the state of the
local variable `group_time`.  `gprev` is that variable's state before the
current loop iteration (`none` = still unbound).  For a `VIP` row the code
first assigns `group_time = None` (line 50); for a `normal` row it assigns
`None` (line 62); for any other type it assigns nothing, so the previous
iteration's value persists. -/
def classify (now : Nat) (u : LegacyUser) (gprev : Option (Option Nat)) :
    Nat × Option (Option Nat) :=
  let isv := u.is_verified.getD 0
  if u.type = some "VIP" then
    match u.VIPTime with
    | some (DBVal.dt v) =>
        if now < v then (3, some (some v))
        else ((if isv ≠ 0 then 2 else 1), some none)
    | _ => ((if isv ≠ 0 then 2 else 1), some none)
  else if u.type = some "normal" then
    ((if isv ≠ 0 then 2 else 1), some none)
  else
    (1, gprev)

/-- The field writes of the main UPDATE statement (lines 82-99): password,
email, group_id, verify_info, is_verified, verify_count, status = 1 and
updated_at.  The token column is not part of the statement. -/
def applyMainUpdate (now : Nat) (u : LegacyUser) (gid : Nat) (r : TargetUser) :
    TargetUser :=
  { r with
    password := u.password.getD ""
    email := u.email.getD ""
    group_id := gid
    verify_info := u.encrypted_identity_info.getD ""
    is_verified := u.is_verified.getD 0
    verify_count := u.auth_count.getD 0
    status := 1
    updated_at := now }

/-- The main UPDATE applied to every row matching the username
(`WHERE username = %s`). -/
def updateStore (now : Nat) (u : LegacyUser) (gid : Nat)
    (s : List TargetUser) : List TargetUser :=
  s.map (fun r => if r.username == u.username then applyMainUpdate now u gid r else r)

/-- The second UPDATE (lines 103-106), setting only `group_time` on rows
matching the username. -/
def updateGroupTime (u : LegacyUser) (g : Option Nat)
    (s : List TargetUser) : List TargetUser :=
  s.map (fun r => if r.username == u.username then { r with group_time := g } else r)

/-- The row built by the INSERT statement (lines 109-137).  `register_time`
is `created_at` with the evaluation time as default (line 117); the token
column is absent from the column list, hence NULL. -/
def insertedRow (now : Nat) (u : LegacyUser) (gid : Nat) (g : Option Nat) :
    TargetUser :=
  let rt := u.created_at.getD now
  { username := u.username
    password := u.password.getD ""
    email := u.email.getD ""
    register_time := rt
    group_id := gid
    is_verified := u.is_verified.getD 0
    verify_info := u.encrypted_identity_info.getD ""
    verify_count := u.auth_count.getD 0
    status := 1
    created_at := rt
    updated_at := now
    group_time := g
    token := none
    tunnel_count := 0
    bandwidth := 0
    traffic_quota := 0
    checkin_count := 0
    continuity_checkin := 0 }

/-- One iteration of the `for user in users` loop (lines 39-137): classify,
look the username up in the target store, then update (lines 80-106) or
insert (lines 107-137).  Both paths read the `group_time` variable, so an
unbound `group_time` raises, which surfaces as `Except.error`. -/
def processUser (now : Nat) (store : List TargetUser)
    (gprev : Option (Option Nat)) (u : LegacyUser) :
    Except String (List TargetUser × Option (Option Nat)) :=
  let gid := (classify now u gprev).1
  let gst := (classify now u gprev).2
  match store.find? (fun r => r.username == u.username) with
  | some _ =>
      let s1 := updateStore now u gid store
      match gst with
      | none => Except.error "UnboundLocalError: group_time"
      | some g =>
          if g.isSome then Except.ok (updateGroupTime u g s1, gst)
          else Except.ok (s1, gst)
  | none =>
      match gst with
      | none => Except.error "UnboundLocalError: group_time"
      | some g => Except.ok (store ++ [insertedRow now u gid g], gst)

/-- The whole `for user in users` loop, threading the target store and the
`group_time` variable state; the first raised error aborts the loop. -/
def reconcileLoop (now : Nat) :
    List LegacyUser → List TargetUser → Option (Option Nat) →
    Except String (List TargetUser)
  | [], store, _ => Except.ok store
  | u :: rest, store, g =>
      match processUser now store g u with
      | Except.error e => Except.error e
      | Except.ok (s', g') => reconcileLoop now rest s' g'

/-- The condition of line 169: the token is truthy and starts with the
known-bad prefix.  (The SQL filter of line 163 additionally keeps only
non-NULL, non-empty tokens; it is absorbed here since empty and NULL tokens
fail this test anyway.) -/
def badToken : Option String → Bool
  | some tk => (tk != "") && tk.startsWith "6dH+"
  | none => false

/-- `clean_specific_tokens` (lines 158-178): overwrite every matching token
with the empty string and report how many were cleaned. -/
def clean_specific_tokens (store : List TargetUser) : List TargetUser × Nat :=
  (store.map (fun r => if badToken r.token then { r with token := some "" } else r),
   (store.filter (fun r => badToken r.token)).length)

/-- `migrate_users` (lines 24-156): run the reconciliation body, then the
token hygiene pass, then commit.  Any exception rolls the target transaction
back — the returned store is the initial one — and the run reports the
failure with its cause instead of a success count. -/
def migrate_users (now : Nat) (users : List LegacyUser)
    (store : List TargetUser) : List TargetUser × Except String Nat :=
  match reconcileLoop now users store none with
  | Except.error e => (store, Except.error e)
  | Except.ok s1 => ((clean_specific_tokens s1).1, Except.ok users.length)

/-- A row of the `node_traffic_log` table. -/
structure TrafficRecord where
  id : Nat
  node_name : String
  traffic_in : Int
  traffic_out : Int
  online_count : Int
  record_time : Nat
  record_date : Nat
  is_increment : Int
  deriving DecidableEq

/-- `MAX(record_date)` over a list of records (lines 211-216). -/
def maxDate : List TrafficRecord → Nat
  | [] => 0
  | r :: rs => max r.record_date (maxDate rs)

/-- Accumulated `traffic_in` (lines 222-227). -/
def sumIn (rs : List TrafficRecord) : Int :=
  (rs.map (fun r => r.traffic_in)).sum

/-- Accumulated `traffic_out` (lines 222-227). -/
def sumOut (rs : List TrafficRecord) : Int :=
  (rs.map (fun r => r.traffic_out)).sum

/-- The in-place UPDATE of lines 241-245: on the row with the given id, set
the summed traffic, refresh `record_time` and set `is_increment = 0`. -/
def updTraffic (tin tout : Int) (now : Nat) (tid : Nat) (r : TrafficRecord) :
    TrafficRecord :=
  if r.id = tid then
    { r with traffic_in := tin, traffic_out := tout, record_time := now,
             is_increment := 0 }
  else r

/-- A fresh primary key for the INSERT branch (lines 248-252). -/
def freshId (s : List TrafficRecord) : Nat :=
  (s.map (fun r => r.id)).foldr max 0 + 1

/-- The per-node body of `consolidate_node_traffic` (lines 194-261) for one
entity `name`: fetch its records, take the latest date, sum the traffic,
update the row at the latest date in place (or insert one), then delete
every other row of that entity.  Returns the new store and the number of
deleted rows. -/
def consolidate_node_traffic (now : Nat) (name : String)
    (s : List TrafficRecord) : List TrafficRecord × Nat :=
  let records := s.filter (fun r => r.node_name == name)
  if records.isEmpty then (s, 0)
  else
    let latest := maxDate records
    let tin := sumIn records
    let tout := sumOut records
    let s1 : List TrafficRecord :=
      match s.find? (fun r => r.node_name == name && r.record_date == latest) with
      | some r0 => s.map (updTraffic tin tout now r0.id)
      | none => s ++ [{ id := freshId s, node_name := name, traffic_in := tin,
                        traffic_out := tout, online_count := 0, record_time := now,
                        record_date := latest, is_increment := 0 }]
    let s2 := s1.filter (fun r => !(r.node_name == name && r.record_date != latest))
    (s2, s1.length - s2.length)

/-! ## Sample data used by concrete witnesses and counterexamples -/

def c1_user : LegacyUser := ⟨"u1", some "guest", none, none, none, none, none, none, none⟩

def c2_alice : LegacyUser := ⟨"alice", some "VIP", some (DBVal.dt 100), some 1, none, none, none, none, none⟩

def c2_bob : LegacyUser := ⟨"bob", some "guest", none, some 1, none, none, none, none, none⟩

def c3_user : LegacyUser := ⟨"carol", some "NORMAL", none, some 1, none, none, none, none, none⟩

def c3_wuser : LegacyUser := ⟨"dave", some "normal", none, some 1, none, none, none, none, none⟩

def c7_alice : LegacyUser := ⟨"ava", some "VIP", some (DBVal.dt 100), some 1, none, none, none, none, none⟩

def c7_bob : LegacyUser := ⟨"ben", some "guest", none, some 0, none, none, none, none, none⟩

def c7_row : TargetUser := ⟨"ben", "", "", 0, 1, 0, "", 0, 1, 0, 0, none, some "keep-me", 0, 0, 0, 0, 0⟩

def c9_user : LegacyUser := ⟨"eve", some "VIP", some (DBVal.dt 100), some 0, none, none, none, none, none⟩

def c10_rec : TrafficRecord := ⟨3, "n", 5, 3, 7, 0, 1, 1⟩

/-! ## C1: any per-row error rolls the whole run back and reports the failure -/

/-- C1: if any per-row error occurs during the reconciliation body, the
whole target-store transaction is rolled back — `migrate_users` returns the
initial store unchanged — and the outcome is the failure carrying the
underlying cause, never a partial success count. -/
theorem spec_C1_rollback (now : Nat) (users : List LegacyUser)
    (store : List TargetUser) (e : String)
    (h : reconcileLoop now users store none = Except.error e) :
    migrate_users now users store = (store, Except.error e) := by
  simp [migrate_users, h]

/-- C1 witness: a one-row batch whose processing raises (its account type is
unrecognised, so the unbound `group_time` variable is referenced) leaves the
empty target store empty and reports the error. -/
theorem spec_C1_rollback_witness :
    migrate_users 5 [c1_user] [] = ([], Except.error "UnboundLocalError: group_time") :=
  spec_C1_rollback 5 [c1_user] [] "UnboundLocalError: group_time" rfl

/-! ## C2: classification of other/absent account types -/

/-- C2 fails on the code: with evaluation time 50, the batch
`[c2_alice (active VIP expiring at 100), c2_bob (type "guest")]` run on an
empty target store inserts bob with tier-expiry 100 — the `group_time`
local variable still holds alice's value when bob's unrecognised type
assigns it nothing — although the claim demands expiry null for bob.  The
second conjunct shows the classification of bob depends on the carried
state, not only on bob's own fields. -/
theorem spec_C2_group_time_leak :
    (reconcileLoop 50 [c2_alice, c2_bob] [] none).toOption.map
        (fun s => s.map (fun r => r.group_time)) = some [some 100, some 100] ∧
    classify 50 c2_bob (some (some 100)) ≠ classify 50 c2_bob (some none) := by
  constructor
  · decide
  · decide

/-! ## C3: classification of `NORMAL` accounts -/

/-- C3 as stated fails on the code: a verified account whose type is the
exact string `"NORMAL"` is classified tier 1, not tier 2 — the code
compares against the lowercase string `"normal"` and uppercase `"NORMAL"`
falls through to the default branch. -/
theorem spec_C3_counterexample :
    (classify 0 c3_user (some none)).1 = 1 ∧
    (classify 0 c3_user (some none)).1 ≠ 2 := by
  decide

/-- C3 amended: for every legacy account whose type is the exact lowercase
string `"normal"`, the classifier yields tier 2 if the verification flag is
set and tier 1 otherwise, with expiry null, and never tier 3. -/
theorem spec_C3_normal_lowercase (now : Nat) (u : LegacyUser)
    (g : Option (Option Nat)) (h : u.type = some "normal") :
    classify now u g = ((if u.is_verified.getD 0 ≠ 0 then 2 else 1), some none) ∧
    (classify now u g).1 ≠ 3 := by
  constructor
  · simp [classify, h]
  · simp [classify, h]
    split <;> simp

/-- C3 witness: a verified account of type `"normal"` classifies to tier 2,
expiry null, regardless of the carried `group_time` state. -/
theorem spec_C3_normal_lowercase_witness :
    classify 9 c3_wuser (some (some 77)) = (2, some none) ∧
    (classify 9 c3_wuser (some (some 77))).1 ≠ 3 := by
  have h := spec_C3_normal_lowercase 9 c3_wuser (some (some 77)) rfl
  exact ⟨by rw [h.1]; decide, h.2⟩

/-! ## C7: the separate tier-expiry update -/

/-- C7 fails on the code: ben's computed tier-expiry is null (his type is
unrecognised, so the classifier's rule-4 expiry is null), yet the second
UPDATE fires with the `group_time` value left over from ava's iteration and
changes ben's stored tier-expiry from null to 100. -/
theorem spec_C7_stale_expiry_update :
    c7_row.group_time = none ∧
    (reconcileLoop 50 [c7_alice, c7_bob] [c7_row] none).toOption.map
        (fun s => s.map (fun r => r.group_time)) = some [some 100, some 100] := by
  constructor
  · decide
  · decide

/-! ## C9: classification of VIP accounts -/

/-- C9: for a legacy account of type `"VIP"`: if the expiry value is present,
is a genuine datetime and is strictly later than the evaluation time, the
classifier yields tier 3 with that timestamp as expiry; otherwise (absent,
invalid, or not in the future) it yields tier 2 if verified else tier 1,
with expiry null. -/
theorem spec_C9_vip (now : Nat) (u : LegacyUser) (g : Option (Option Nat))
    (h : u.type = some "VIP") :
    (∀ v : Nat, u.VIPTime = some (DBVal.dt v) → now < v →
        classify now u g = (3, some (some v))) ∧
    ((∀ v : Nat, u.VIPTime = some (DBVal.dt v) → v ≤ now) →
        classify now u g = ((if u.is_verified.getD 0 ≠ 0 then 2 else 1), some none)) := by
  constructor
  · intro v hv hlt
    simp [classify, h, hv, hlt]
  · intro hle
    rcases hvt : u.VIPTime with _ | val
    · simp [classify, h, hvt]
    · cases val with
      | dt v =>
          have hv := hle v hvt
          simp [classify, h, hvt, Nat.not_lt.mpr hv]
      | nonDt => simp [classify, h, hvt]

/-- C9 witness: an unverified VIP account with expiry 100, evaluated at time
50, classifies to tier 3 with expiry 100. -/
theorem spec_C9_vip_witness :
    classify 50 c9_user (some none) = (3, some (some 100)) :=
  (spec_C9_vip 50 c9_user (some none) rfl).1 100 rfl (by decide)

/-! ## C10 counterexample: the in-place traffic update also writes is_increment -/

/-- C10 as stated fails on the code: consolidating a single record that has
`is_increment = 1` changes that flag to 0, so the in-place update writes a
fourth column beyond traffic-in, traffic-out and the record timestamp. -/
theorem spec_C10_counterexample :
    c10_rec.is_increment = 1 ∧
    (consolidate_node_traffic 100 "n" [c10_rec]).1.map (fun r => r.is_increment) = [0] := by
  constructor
  · decide
  · decide

/-! ## C8: token hygiene -/

/-- A token that was just cleaned (or never matched) does not match again. -/
lemma badToken_clean (r : TargetUser) :
    badToken ((if badToken r.token then { r with token := some "" } else r).token) = false := by
  by_cases hb : badToken r.token = true
  · rw [if_pos hb]
    show badToken (some "") = false
    decide
  · rw [if_neg hb]
    simpa using hb

/-- C8: the token-hygiene pass maps every row with a matching token to the
same row with an empty token and leaves every other row unchanged (stated
pointwise over the store), and running the pass again on its own output
changes nothing and reports `cleaned = 0`. -/
theorem spec_C8_token_hygiene (s : List TargetUser) :
    (∀ i : Nat, (clean_specific_tokens s).1[i]? =
        (s[i]?).map (fun r => if badToken r.token then { r with token := some "" } else r)) ∧
    clean_specific_tokens (clean_specific_tokens s).1 =
      ((clean_specific_tokens s).1, 0) := by
  constructor
  · intro i
    simp [clean_specific_tokens, List.getElem?_map]
  · simp only [clean_specific_tokens]
    refine Prod.ext ?_ ?_
    · show (List.map _ (List.map _ s)) = List.map _ s
      rw [List.map_map]
      refine List.map_congr_left ?_
      intro r _
      show (fun r => if badToken r.token then { r with token := some "" } else r)
          ((fun r => if badToken r.token then { r with token := some "" } else r) r) = _
      simp [badToken_clean r]
    · show (List.filter _ (List.map _ s)).length = 0
      rw [List.length_eq_zero, List.filter_eq_nil_iff]
      intro r hr
      rcases List.mem_map.mp hr with ⟨r0, _, rfl⟩
      simp [badToken_clean r0]

/-! ## C4: the update path never touches the token column -/

/-- The main UPDATE leaves the token column of every row unchanged. -/
lemma map_token_updateStore (now : Nat) (u : LegacyUser) (gid : Nat)
    (s : List TargetUser) :
    (updateStore now u gid s).map (fun r => r.token) = s.map (fun r => r.token) := by
  unfold updateStore
  rw [List.map_map]
  refine List.map_congr_left ?_
  intro r _
  show (if r.username == u.username then applyMainUpdate now u gid r else r).token = r.token
  by_cases hb : (r.username == u.username) = true
  · rw [if_pos hb]; rfl
  · rw [if_neg hb]

/-- The second (group_time) UPDATE leaves the token column of every row
unchanged. -/
lemma map_token_updateGroupTime (u : LegacyUser) (g : Option Nat)
    (s : List TargetUser) :
    (updateGroupTime u g s).map (fun r => r.token) = s.map (fun r => r.token) := by
  unfold updateGroupTime
  rw [List.map_map]
  refine List.map_congr_left ?_
  intro r _
  show (if r.username == u.username then { r with group_time := g } else r).token = r.token
  by_cases hb : (r.username == u.username) = true
  · rw [if_pos hb]
  · rw [if_neg hb]

/-- C4: whenever the target store already holds a row with the legacy
account's username (so the reconciliation takes the update path), the whole
per-row step leaves the token column of every row — in particular any
pre-existing non-empty credential — exactly as it was. -/
theorem spec_C4_token_preserved (now : Nat) (s : List TargetUser)
    (g g' : Option (Option Nat)) (u : LegacyUser) (s' : List TargetUser)
    (hfound : ∃ r ∈ s, r.username = u.username)
    (h : processUser now s g u = Except.ok (s', g')) :
    s'.map (fun r => r.token) = s.map (fun r => r.token) := by
  have hfind : (s.find? (fun r => r.username == u.username)).isSome = true := by
    rw [List.find?_isSome]
    rcases hfound with ⟨r, hr, he⟩
    exact ⟨r, hr, by simp [he]⟩
  simp only [processUser] at h
  split at h
  · split at h
    · simp at h
    · split at h
      · simp only [Except.ok.injEq, Prod.mk.injEq] at h
        obtain ⟨h1, -⟩ := h
        subst h1
        rw [map_token_updateGroupTime, map_token_updateStore]
      · simp only [Except.ok.injEq, Prod.mk.injEq] at h
        obtain ⟨h1, -⟩ := h
        subst h1
        rw [map_token_updateStore]
  · next hfo =>
      rw [hfo] at hfind
      simp at hfind

def c4_user : LegacyUser := ⟨"bob", some "normal", none, some 1, some "pw", none, none, none, none⟩

def c4_row : TargetUser := ⟨"bob", "", "", 0, 1, 0, "", 0, 1, 0, 0, none, some "keep-me", 0, 0, 0, 0, 0⟩

/-- C4 witness: updating the existing `bob` row, whose credential is
`"keep-me"`, leaves the credential column exactly as before. -/
theorem spec_C4_token_preserved_witness :
    (updateStore 9 c4_user 2 [c4_row]).map (fun r => r.token) = [some "keep-me"] :=
  (spec_C4_token_preserved 9 [c4_row] (some none) (some none) c4_user
    (updateStore 9 c4_user 2 [c4_row]) ⟨c4_row, by decide, rfl⟩ rfl).trans (by decide)

/-! ## C6 and C10: traffic consolidation -/

lemma updTraffic_node_name (tin tout : Int) (now tid : Nat) (r : TrafficRecord) :
    (updTraffic tin tout now tid r).node_name = r.node_name := by
  unfold updTraffic; split <;> rfl

lemma updTraffic_record_date (tin tout : Int) (now tid : Nat) (r : TrafficRecord) :
    (updTraffic tin tout now tid r).record_date = r.record_date := by
  unfold updTraffic; split <;> rfl

lemma updTraffic_id (tin tout : Int) (now tid : Nat) (r : TrafficRecord) :
    (updTraffic tin tout now tid r).id = r.id := by
  unfold updTraffic; split <;> rfl

lemma updTraffic_online_count (tin tout : Int) (now tid : Nat) (r : TrafficRecord) :
    (updTraffic tin tout now tid r).online_count = r.online_count := by
  unfold updTraffic; split <;> rfl

/-- Every record's date is bounded by the maximum date. -/
lemma le_maxDate (l : List TrafficRecord) (r : TrafficRecord) (h : r ∈ l) :
    r.record_date ≤ maxDate l := by
  induction l with
  | nil => cases h
  | cons a rs ih =>
      rcases List.mem_cons.mp h with rfl | h'
      · simp [maxDate]
      · exact le_trans (ih h') (by simp [maxDate])

/-- The maximum date of a nonempty record list is attained. -/
lemma maxDate_mem (l : List TrafficRecord) (h : l ≠ []) :
    ∃ r ∈ l, r.record_date = maxDate l := by
  induction l with
  | nil => exact absurd rfl h
  | cons r rs ih =>
      rcases eq_or_ne rs [] with hrs | hrs
      · subst hrs
        exact ⟨r, by simp, by simp [maxDate]⟩
      · rcases ih hrs with ⟨r0, hr0, hd⟩
        rcases le_total (maxDate rs) r.record_date with hle | hle
        · exact ⟨r, by simp, by simp [maxDate, max_eq_left hle]⟩
        · exact ⟨r0, by simp [hr0], by simp [maxDate, hd, max_eq_right hle]⟩

/-- Under pairwise-distinct dates, filtering a list to one member's date
yields exactly that member. -/
lemma filter_date_singleton (l : List TrafficRecord) (d : Nat)
    (hpw : l.Pairwise (fun a b => a.record_date ≠ b.record_date))
    (r0 : TrafficRecord) (h0 : r0 ∈ l) (hd : r0.record_date = d) :
    l.filter (fun r => r.record_date == d) = [r0] := by
  induction l with
  | nil => cases h0
  | cons a rs ih =>
      rcases List.pairwise_cons.mp hpw with ⟨ha, hrs⟩
      rcases List.mem_cons.mp h0 with rfl | h'
      · have hnil : rs.filter (fun r => r.record_date == d) = [] := by
          rw [List.filter_eq_nil_iff]
          intro b hb
          simp only [beq_iff_eq]
          intro hbe
          exact ha b hb (hd ▸ hbe.symm)
        rw [List.filter_cons, if_pos (by simp [hd]), hnil]
      · have hane : ¬(a.record_date == d) = true := by
          simp only [beq_iff_eq]
          intro hae
          exact ha r0 h' (hae.trans hd.symm)
        rw [List.filter_cons, if_neg hane]
        exact ih hrs h'

/-- If filtering yields exactly one element, `find?` finds it. -/
lemma find?_of_filter_eq_singleton {α : Type} (p : α → Bool) (a : α) :
    ∀ l : List α, l.filter p = [a] → l.find? p = some a := by
  intro l
  induction l with
  | nil => intro h; simp at h
  | cons b rs ih =>
      intro h
      by_cases hb : p b = true
      · rw [List.filter_cons, if_pos hb] at h
        injection h with h1 _
        subst h1
        exact List.find?_cons_of_pos _ hb
      · rw [List.filter_cons, if_neg hb] at h
        rw [List.find?_cons_of_neg _ hb]
        exact ih h

/-- The surviving-and-matching predicate after deletion coincides with
"matching at the latest date". -/
lemma keep_and_name (name : String) (latest : Nat) (r : TrafficRecord) :
    (r.node_name == name && !(r.node_name == name && r.record_date != latest)) =
    (r.node_name == name && r.record_date == latest) := by
  cases hp : r.node_name == name <;> cases hd : r.record_date == latest <;>
    simp [hp, hd, bne]

/-- One run of the consolidator in the update branch, written out. -/
lemma consolidate_run (now : Nat) (name : String) (s : List TrafficRecord)
    (r0 : TrafficRecord)
    (hne : s.filter (fun r => r.node_name == name) ≠ [])
    (hfind : s.find? (fun r => r.node_name == name &&
        r.record_date == maxDate (s.filter (fun r => r.node_name == name))) = some r0) :
    consolidate_node_traffic now name s =
      ((s.map (updTraffic (sumIn (s.filter (fun r => r.node_name == name)))
                          (sumOut (s.filter (fun r => r.node_name == name))) now r0.id)).filter
          (fun r => !(r.node_name == name &&
            r.record_date != maxDate (s.filter (fun r => r.node_name == name)))),
       (s.map (updTraffic (sumIn (s.filter (fun r => r.node_name == name)))
                          (sumOut (s.filter (fun r => r.node_name == name))) now r0.id)).length -
       ((s.map (updTraffic (sumIn (s.filter (fun r => r.node_name == name)))
                          (sumOut (s.filter (fun r => r.node_name == name))) now r0.id)).filter
          (fun r => !(r.node_name == name &&
            r.record_date != maxDate (s.filter (fun r => r.node_name == name))))).length) := by
  have hie : ¬(s.filter (fun r => r.node_name == name)).isEmpty = true := by
    simpa [List.isEmpty_iff] using hne
  simp only [consolidate_node_traffic]
  rw [if_neg hie, hfind]

/-- After one consolidator run, the rows of the entity reduce to exactly the
updated copy of the row found at the maximum date. -/
lemma consolidate_result_filter (tin tout : Int) (now : Nat) (name : String)
    (s : List TrafficRecord) (r0 : TrafficRecord)
    (hpw : (s.filter (fun r => r.node_name == name)).Pairwise
        (fun a b => a.record_date ≠ b.record_date))
    (hr0 : r0 ∈ s.filter (fun r => r.node_name == name))
    (hr0d : r0.record_date = maxDate (s.filter (fun r => r.node_name == name))) :
    ((s.map (updTraffic tin tout now r0.id)).filter
        (fun r => !(r.node_name == name &&
          r.record_date != maxDate (s.filter (fun r => r.node_name == name))))).filter
      (fun r => r.node_name == name) = [updTraffic tin tout now r0.id r0] := by
  rw [List.filter_filter]
  rw [List.filter_congr
      (fun a _ => keep_and_name name (maxDate (s.filter (fun r => r.node_name == name))) a)]
  rw [List.filter_map]
  rw [List.filter_congr (l := s) (fun a _ => by
    show ((updTraffic tin tout now r0.id a).node_name == name &&
        (updTraffic tin tout now r0.id a).record_date ==
          maxDate (s.filter (fun r => r.node_name == name))) =
      ((a.record_date == maxDate (s.filter (fun r => r.node_name == name))) &&
        (a.node_name == name))
    rw [updTraffic_node_name, updTraffic_record_date, Bool.and_comm])]
  rw [← List.filter_filter]
  rw [filter_date_singleton (s.filter (fun r => r.node_name == name))
      (maxDate (s.filter (fun r => r.node_name == name))) hpw r0 hr0 hr0d]
  rfl

lemma maxDate_singleton (r : TrafficRecord) : maxDate [r] = r.record_date := by
  simp [maxDate]

lemma sumIn_singleton (r : TrafficRecord) : sumIn [r] = r.traffic_in := by
  simp [sumIn]

lemma sumOut_singleton (r : TrafficRecord) : sumOut [r] = r.traffic_out := by
  simp [sumOut]

lemma updTraffic_self (tin tout : Int) (now : Nat) (r0 : TrafficRecord) :
    updTraffic tin tout now (updTraffic tin tout now r0.id r0).id
        (updTraffic tin tout now r0.id r0) =
      updTraffic tin tout now r0.id r0 := by
  simp [updTraffic]

lemma TrafficRecord_update_self (r : TrafficRecord) (x : Nat) (y : Int)
    (hx : r.record_time = x) (hy : r.is_increment = y) :
    ({ r with
        traffic_in := r.traffic_in
        traffic_out := r.traffic_out
        record_time := x
        is_increment := y } : TrafficRecord) = r := by
  cases r
  simp_all

/-- C6: consolidating an entity with at least one usage record (dates unique
per the natural key, primary keys unique) leaves exactly one record for the
entity, dated at the maximum observed date, holding the summed traffic; and
re-running the consolidator on the result changes nothing and removes
nothing. -/
theorem spec_C6_consolidation (now : Nat) (name : String) (s : List TrafficRecord)
    (hne : s.filter (fun r => r.node_name == name) ≠ [])
    (hpw : (s.filter (fun r => r.node_name == name)).Pairwise
        (fun a b => a.record_date ≠ b.record_date))
    (hids : (s.map (fun r => r.id)).Nodup) :
    ∃ rec : TrafficRecord,
      (consolidate_node_traffic now name s).1.filter (fun r => r.node_name == name) = [rec] ∧
      rec.record_date = maxDate (s.filter (fun r => r.node_name == name)) ∧
      rec.traffic_in = sumIn (s.filter (fun r => r.node_name == name)) ∧
      rec.traffic_out = sumOut (s.filter (fun r => r.node_name == name)) ∧
      consolidate_node_traffic now name (consolidate_node_traffic now name s).1 =
        ((consolidate_node_traffic now name s).1, 0) := by
  obtain ⟨rm, hrm, hrd⟩ := maxDate_mem _ hne
  have hsome : (s.find? (fun r => r.node_name == name &&
      r.record_date == maxDate (s.filter (fun r => r.node_name == name)))).isSome = true := by
    rw [List.find?_isSome]
    exact ⟨rm, (List.mem_filter.mp hrm).1,
      by simp [(List.mem_filter.mp hrm).2, hrd]⟩
  obtain ⟨r0, hfind⟩ := Option.isSome_iff_exists.mp hsome
  have hr0pred := List.find?_some hfind
  rw [Bool.and_eq_true] at hr0pred
  have hr0name := hr0pred.1
  have hr0date : r0.record_date = maxDate (s.filter (fun r => r.node_name == name)) := by
    simpa using hr0pred.2
  have hr0mem : r0 ∈ s.filter (fun r => r.node_name == name) :=
    List.mem_filter.mpr ⟨List.mem_of_find?_eq_some hfind, hr0name⟩
  have hrun := consolidate_run now name s r0 hne hfind
  have hfilter := consolidate_result_filter
      (sumIn (s.filter (fun r => r.node_name == name)))
      (sumOut (s.filter (fun r => r.node_name == name))) now name s r0 hpw hr0mem hr0date
  have hS2 : (consolidate_node_traffic now name s).1 =
      ((s.map (updTraffic (sumIn (s.filter (fun r => r.node_name == name)))
                          (sumOut (s.filter (fun r => r.node_name == name))) now r0.id)).filter
          (fun r => !(r.node_name == name &&
            r.record_date != maxDate (s.filter (fun r => r.node_name == name))))) := by
    rw [hrun]
  set REC := s.filter (fun r => r.node_name == name) with hREC
  set UPD := updTraffic (sumIn REC) (sumOut REC) now r0.id with hUPD
  set X := (s.map UPD).filter
      (fun r => !(r.node_name == name && r.record_date != maxDate REC)) with hXd
  refine ⟨UPD r0, ?_, ?_, ?_, ?_, ?_⟩
  · rw [hS2]
    exact hfilter
  · rw [hUPD, updTraffic_record_date]
    exact hr0date
  · rw [hUPD]
    simp [updTraffic]
  · rw [hUPD]
    simp [updTraffic]
  · have hmemX : UPD r0 ∈ X := by
      have hm : UPD r0 ∈ X.filter (fun r => r.node_name == name) := by
        rw [hfilter]
        exact List.mem_singleton_self _
      exact (List.mem_filter.mp hm).1
    have hne2 : X.filter (fun r => r.node_name == name) ≠ [] := by
      rw [hfilter]
      simp
    have hdate_upd : (UPD r0).record_date = r0.record_date := by
      rw [hUPD, updTraffic_record_date]
    have hL2 : maxDate (X.filter (fun r => r.node_name == name)) = r0.record_date := by
      rw [hfilter, maxDate_singleton, hdate_upd]
    have htin2 : sumIn (X.filter (fun r => r.node_name == name)) = sumIn REC := by
      rw [hfilter, sumIn_singleton, hUPD]
      simp [updTraffic]
    have htout2 : sumOut (X.filter (fun r => r.node_name == name)) = sumOut REC := by
      rw [hfilter, sumOut_singleton, hUPD]
      simp [updTraffic]
    have hfind2 : X.find? (fun r => r.node_name == name &&
        r.record_date == maxDate (X.filter (fun r => r.node_name == name))) =
        some (UPD r0) := by
      apply find?_of_filter_eq_singleton
      have hflip : X.filter (fun r => r.node_name == name &&
          r.record_date == maxDate (X.filter (fun r => r.node_name == name))) =
          X.filter (fun r =>
            (r.record_date == maxDate (X.filter (fun r => r.node_name == name))) &&
            (r.node_name == name)) :=
        List.filter_congr (fun a _ => Bool.and_comm _ _)
      rw [hflip, ← List.filter_filter, hfilter, maxDate_singleton]
      simp
    have hrun2 := consolidate_run now name X (UPD r0) hne2 hfind2
    have hids1 : ((s.map UPD).map (fun r => r.id)).Nodup := by
      rw [List.map_map]
      have hcmp : s.map ((fun r => r.id) ∘ UPD) = s.map (fun r => r.id) :=
        List.map_congr_left (fun a _ => by rw [Function.comp, hUPD, updTraffic_id])
      rw [hcmp]
      exact hids
    have hidsX : (X.map (fun r => r.id)).Nodup := by
      have hsub : X.Sublist (s.map UPD) := by
        rw [hXd]
        exact List.filter_sublist _
      exact (hsub.map (fun r => r.id)).nodup hids1
    have hX1 : X.map (updTraffic (sumIn (X.filter (fun r => r.node_name == name)))
        (sumOut (X.filter (fun r => r.node_name == name))) now (UPD r0).id) = X := by
      have hptw : ∀ a ∈ X, updTraffic (sumIn (X.filter (fun r => r.node_name == name)))
          (sumOut (X.filter (fun r => r.node_name == name))) now (UPD r0).id a = id a := by
        intro a ha
        show updTraffic _ _ now (UPD r0).id a = a
        by_cases hid : a.id = (UPD r0).id
        · have haeq : a = UPD r0 := List.inj_on_of_nodup_map hidsX ha hmemX hid
          subst haeq
          rw [htin2, htout2, hUPD]
          exact updTraffic_self (sumIn REC) (sumOut REC) now r0
        · simp [updTraffic, hid]
      rw [List.map_congr_left hptw, List.map_id]
    have hY : X.filter (fun r => !(r.node_name == name &&
        r.record_date != maxDate (X.filter (fun r => r.node_name == name)))) = X := by
      rw [List.filter_eq_self]
      intro r hr
      by_cases hp : (r.node_name == name) = true
      · have hrX : r ∈ X.filter (fun r => r.node_name == name) :=
          List.mem_filter.mpr ⟨hr, hp⟩
        rw [hfilter] at hrX
        have hre : r = UPD r0 := List.mem_singleton.mp hrX
        subst hre
        simp [hL2, hdate_upd]
      · simp [hp]
    rw [hS2, hrun2, hX1, hY, Nat.sub_self]

def c6_store : List TrafficRecord := [⟨1, "n", 5, 3, 0, 0, 1, 0⟩, ⟨2, "n", 7, 2, 0, 0, 2, 0⟩]

/-- C6 witness: the spec's own example — records [(d1,5,3), (d2,7,2)] with
d2 > d1 consolidate to one record at d2 with traffic 12/5, and a second run
is a no-op that removes nothing. -/
theorem spec_C6_consolidation_witness :
    ∃ rec : TrafficRecord,
      (consolidate_node_traffic 10 "n" c6_store).1.filter (fun r => r.node_name == "n") = [rec] ∧
      rec.record_date = maxDate (c6_store.filter (fun r => r.node_name == "n")) ∧
      rec.traffic_in = sumIn (c6_store.filter (fun r => r.node_name == "n")) ∧
      rec.traffic_out = sumOut (c6_store.filter (fun r => r.node_name == "n")) ∧
      consolidate_node_traffic 10 "n" (consolidate_node_traffic 10 "n" c6_store).1 =
        ((consolidate_node_traffic 10 "n" c6_store).1, 0) :=
  spec_C6_consolidation 10 "n" c6_store (by decide) (by decide) (by decide)

/-- C10 amended: when a record already exists at the entity's maximum date,
consolidation rewrites rows in place — every surviving row keeps its id,
entity name, record date and online-count (the in-place update writes
traffic-in, traffic-out, the record timestamp, and also clears the
deprecated is_increment flag), and every surviving row other than the one
found at the maximum date is wholly unchanged. -/
theorem spec_C10_update_frame (now : Nat) (name : String) (s : List TrafficRecord)
    (r0 : TrafficRecord)
    (hfind : s.find? (fun r => r.node_name == name &&
        r.record_date == maxDate (s.filter (fun r => r.node_name == name))) = some r0) :
    ∀ r' ∈ (consolidate_node_traffic now name s).1,
      (∃ r ∈ s, r'.id = r.id ∧ r'.node_name = r.node_name ∧
        r'.record_date = r.record_date ∧ r'.online_count = r.online_count) ∧
      (r'.id ≠ r0.id → r' ∈ s) := by
  have hpred := List.find?_some hfind
  rw [Bool.and_eq_true] at hpred
  have hmem := List.mem_of_find?_eq_some hfind
  have hne : s.filter (fun r => r.node_name == name) ≠ [] := by
    intro hnil
    have hin : r0 ∈ s.filter (fun r => r.node_name == name) :=
      List.mem_filter.mpr ⟨hmem, hpred.1⟩
    rw [hnil] at hin
    cases hin
  have hrun := consolidate_run now name s r0 hne hfind
  have hS : (consolidate_node_traffic now name s).1 =
      ((s.map (updTraffic (sumIn (s.filter (fun r => r.node_name == name)))
                          (sumOut (s.filter (fun r => r.node_name == name))) now r0.id)).filter
          (fun r => !(r.node_name == name &&
            r.record_date != maxDate (s.filter (fun r => r.node_name == name))))) := by
    rw [hrun]
  intro r' hr'
  rw [hS] at hr'
  have hr'm := (List.mem_filter.mp hr').1
  obtain ⟨r, hrs, hreq⟩ := List.mem_map.mp hr'm
  constructor
  · exact ⟨r, hrs, by rw [← hreq, updTraffic_id], by rw [← hreq, updTraffic_node_name],
      by rw [← hreq, updTraffic_record_date], by rw [← hreq, updTraffic_online_count]⟩
  · intro hid
    have hrid : ¬ r.id = r0.id := by
      intro he
      apply hid
      rw [← hreq, updTraffic_id, he]
    have hupd : updTraffic (sumIn (s.filter (fun r => r.node_name == name)))
        (sumOut (s.filter (fun r => r.node_name == name))) now r0.id r = r := by
      simp [updTraffic, hrid]
    rw [← hreq, hupd]
    exact hrs

def c10_store : List TrafficRecord := [⟨4, "m", 1, 2, 9, 0, 3, 0⟩, ⟨5, "m", 3, 4, 8, 0, 5, 1⟩]

/-- C10 witness: on a two-record entity whose latest record carries id 5,
every surviving record keeps its id, name, date and online-count, and
records with other ids are untouched. -/
theorem spec_C10_update_frame_witness :
    (∃ r ∈ c10_store, (⟨5, "m", 4, 6, 8, 20, 5, 0⟩ : TrafficRecord).id = r.id ∧
      (⟨5, "m", 4, 6, 8, 20, 5, 0⟩ : TrafficRecord).node_name = r.node_name ∧
      (⟨5, "m", 4, 6, 8, 20, 5, 0⟩ : TrafficRecord).record_date = r.record_date ∧
      (⟨5, "m", 4, 6, 8, 20, 5, 0⟩ : TrafficRecord).online_count = r.online_count) ∧
    ((⟨5, "m", 4, 6, 8, 20, 5, 0⟩ : TrafficRecord).id ≠
        (⟨5, "m", 3, 4, 8, 0, 5, 1⟩ : TrafficRecord).id →
      (⟨5, "m", 4, 6, 8, 20, 5, 0⟩ : TrafficRecord) ∈ c10_store) :=
  spec_C10_update_frame 20 "m" c10_store ⟨5, "m", 3, 4, 8, 0, 5, 1⟩ (by decide)
    ⟨5, "m", 4, 6, 8, 20, 5, 0⟩ (by decide)

/-! ## C5: reconciliation idempotence -/

lemma applyMainUpdate_username (now : Nat) (u : LegacyUser) (gid : Nat) (r : TargetUser) :
    (applyMainUpdate now u gid r).username = r.username := rfl

lemma applyMainUpdate_idem (now : Nat) (u : LegacyUser) (gid : Nat) (r : TargetUser) :
    applyMainUpdate now u gid (applyMainUpdate now u gid r) = applyMainUpdate now u gid r := rfl

lemma applyMainUpdate_insertedRow (now : Nat) (u : LegacyUser) (gid : Nat) (g : Option Nat) :
    applyMainUpdate now u gid (insertedRow now u gid g) = insertedRow now u gid g := rfl

lemma insertedRow_username (now : Nat) (u : LegacyUser) (gid : Nat) (g : Option Nat) :
    (insertedRow now u gid g).username = u.username := rfl

lemma if_update_username (now : Nat) (u : LegacyUser) (gid : Nat) (r : TargetUser) :
    (if r.username == u.username then applyMainUpdate now u gid r else r).username =
      r.username := by
  by_cases hb : (r.username == u.username) = true
  · rw [if_pos hb]
    rfl
  · rw [if_neg hb]

lemma if_gtime_username (u : LegacyUser) (g : Option Nat) (r : TargetUser) :
    (if r.username == u.username then { r with group_time := g } else r).username =
      r.username := by
  by_cases hb : (r.username == u.username) = true
  · rw [if_pos hb]
  · rw [if_neg hb]

lemma TargetUser_set_group_time_self (r : TargetUser) (g : Option Nat)
    (h : r.group_time = g) : ({ r with group_time := g } : TargetUser) = r := by
  cases r
  simp_all

/-- Filtering commutes away a map that fixes all rows the filter keeps and
does not change whether a row is kept. -/
lemma filter_map_invariant {α : Type} (p : α → Bool) (f : α → α)
    (hf : ∀ r, p r = true → f r = r) (hp : ∀ r, p (f r) = p r) :
    ∀ l : List α, (l.map f).filter p = l.filter p := by
  intro l
  induction l with
  | nil => rfl
  | cons a rs ih =>
      rw [List.map_cons, List.filter_cons, List.filter_cons, hp a]
      by_cases hb : p a = true
      · rw [if_pos hb, if_pos hb, hf a hb, ih]
      · rw [if_neg hb, if_neg hb, ih]

/-- Case analysis of a successful `processUser` step. -/
lemma processUser_ok_cases (now : Nat) (s s' : List TargetUser)
    (g g' : Option (Option Nat)) (u : LegacyUser)
    (h : processUser now s g u = Except.ok (s', g')) :
    ∃ gv : Option Nat, (classify now u g).2 = some gv ∧ g' = some gv ∧
      (((s.find? (fun r => r.username == u.username)).isSome = true ∧
        ((gv.isSome = true ∧
            s' = updateGroupTime u gv (updateStore now u (classify now u g).1 s)) ∨
         (gv.isSome = false ∧ s' = updateStore now u (classify now u g).1 s))) ∨
       (s.find? (fun r => r.username == u.username) = none ∧
        s' = s ++ [insertedRow now u (classify now u g).1 gv])) := by
  simp only [processUser] at h
  split at h
  · next r1 hfo =>
      split at h
      · simp at h
      · next gv hg =>
          by_cases hs : gv.isSome = true
          · rw [if_pos hs] at h
            simp only [Except.ok.injEq, Prod.mk.injEq] at h
            exact ⟨gv, hg, h.2.symm.trans hg, Or.inl ⟨by rw [hfo]; rfl, Or.inl ⟨hs, h.1.symm⟩⟩⟩
          · rw [if_neg hs] at h
            simp only [Except.ok.injEq, Prod.mk.injEq] at h
            exact ⟨gv, hg, h.2.symm.trans hg,
              Or.inl ⟨by rw [hfo]; rfl, Or.inr ⟨by simpa using hs, h.1.symm⟩⟩⟩
  · next hfo =>
      split at h
      · simp at h
      · next gv hg =>
          simp only [Except.ok.injEq, Prod.mk.injEq] at h
          exact ⟨gv, hg, h.2.symm.trans hg, Or.inr ⟨hfo, h.1.symm⟩⟩

/-- A username-preserving map keeps a username present. -/
lemma presence_map (s : List TargetUser) (f : TargetUser → TargetUser)
    (hf : ∀ r ∈ s, (f r).username = r.username) (x : String)
    (hp : ∃ r ∈ s, r.username = x) : ∃ r ∈ s.map f, r.username = x := by
  obtain ⟨r, hr, hrx⟩ := hp
  exact ⟨f r, List.mem_map_of_mem f hr, by rw [hf r hr, hrx]⟩

/-- A successful step keeps every already-present username present. -/
lemma processUser_presence (now : Nat) (s s' : List TargetUser)
    (g g' : Option (Option Nat)) (u : LegacyUser) (x : String)
    (hp : ∃ r ∈ s, r.username = x)
    (h : processUser now s g u = Except.ok (s', g')) :
    ∃ r ∈ s', r.username = x := by
  obtain ⟨gv, _, _, hcase⟩ := processUser_ok_cases now s s' g g' u h
  rcases hcase with ⟨_, hcase2⟩ | ⟨_, rfl⟩
  · rcases hcase2 with ⟨_, rfl⟩ | ⟨_, rfl⟩
    · exact presence_map _ _ (fun r _ => if_gtime_username u gv r) x
        (presence_map _ _ (fun r _ => if_update_username now u _ r) x hp)
    · exact presence_map _ _ (fun r _ => if_update_username now u _ r) x hp
  · obtain ⟨r, hr, hrx⟩ := hp
    exact ⟨r, List.mem_append_left _ hr, hrx⟩

/-- After a successful step the processed account's username is present. -/
lemma processUser_establishes (now : Nat) (s s' : List TargetUser)
    (g g' : Option (Option Nat)) (u : LegacyUser)
    (h : processUser now s g u = Except.ok (s', g')) :
    ∃ r ∈ s', r.username = u.username := by
  obtain ⟨gv, _, _, hcase⟩ := processUser_ok_cases now s s' g g' u h
  rcases hcase with ⟨hfs, hcase2⟩ | ⟨_, rfl⟩
  · have hp : ∃ r ∈ s, r.username = u.username := by
      obtain ⟨r1, hfo⟩ := Option.isSome_iff_exists.mp hfs
      refine ⟨r1, List.mem_of_find?_eq_some hfo, ?_⟩
      have := List.find?_some hfo
      simpa using this
    rcases hcase2 with ⟨_, rfl⟩ | ⟨_, rfl⟩
    · exact presence_map _ _ (fun r _ => if_gtime_username u gv r) _
        (presence_map _ _ (fun r _ => if_update_username now u _ r) _ hp)
    · exact presence_map _ _ (fun r _ => if_update_username now u _ r) _ hp
  · exact ⟨insertedRow now u (classify now u g).1 gv,
      List.mem_append_right _ (List.mem_singleton_self _),
      insertedRow_username now u _ gv⟩

/-- A successful step does not change the rows of any other username. -/
lemma processUser_frame (now : Nat) (s s' : List TargetUser)
    (g g' : Option (Option Nat)) (u : LegacyUser) (x : String)
    (hx : u.username ≠ x)
    (h : processUser now s g u = Except.ok (s', g')) :
    s'.filter (fun r => r.username == x) = s.filter (fun r => r.username == x) := by
  obtain ⟨gv, _, _, hcase⟩ := processUser_ok_cases now s s' g g' u h
  have hfneg : ∀ r : TargetUser, (r.username == x) = true →
      ¬(r.username == u.username) = true := by
    intro r hb hc
    rw [beq_iff_eq] at hb hc
    exact hx (hc ▸ hb : u.username = x)
  have hupd_fix : ∀ r : TargetUser, ((fun r => r.username == x) r) = true →
      (if r.username == u.username then applyMainUpdate now u (classify now u g).1 r else r) = r := by
    intro r hb
    exact if_neg (hfneg r hb)
  have hupd_keep : ∀ r : TargetUser,
      ((fun r => r.username == x)
        (if r.username == u.username then applyMainUpdate now u (classify now u g).1 r else r)) =
      ((fun r => r.username == x) r) := by
    intro r
    show ((if r.username == u.username then applyMainUpdate now u (classify now u g).1 r else r).username == x) = (r.username == x)
    rw [if_update_username]
  have hgt_fix : ∀ r : TargetUser, ((fun r => r.username == x) r) = true →
      (if r.username == u.username then { r with group_time := gv } else r) = r := by
    intro r hb
    exact if_neg (hfneg r hb)
  have hgt_keep : ∀ r : TargetUser,
      ((fun r => r.username == x)
        (if r.username == u.username then { r with group_time := gv } else r)) =
      ((fun r => r.username == x) r) := by
    intro r
    show ((if r.username == u.username then { r with group_time := gv } else r).username == x) = (r.username == x)
    rw [if_gtime_username]
  rcases hcase with ⟨_, hcase2⟩ | ⟨_, rfl⟩
  · rcases hcase2 with ⟨_, rfl⟩ | ⟨_, rfl⟩
    · rw [updateGroupTime, updateStore]
      rw [filter_map_invariant _ _ hgt_fix hgt_keep,
          filter_map_invariant _ _ hupd_fix hupd_keep]
    · rw [updateStore]
      rw [filter_map_invariant _ _ hupd_fix hupd_keep]
  · rw [List.filter_append]
    have hnil : [insertedRow now u (classify now u g).1 gv].filter
        (fun r => r.username == x) = [] := by
      rw [List.filter_cons, if_neg]
      · rfl
      · intro hc
        rw [insertedRow_username] at hc
        rw [beq_iff_eq] at hc
        exact hx hc
    rw [hnil, List.append_nil]

lemma updateStore_eq_self (now : Nat) (u : LegacyUser) (gid : Nat) (s : List TargetUser)
    (h : ∀ r ∈ s, (r.username == u.username) = true → applyMainUpdate now u gid r = r) :
    updateStore now u gid s = s := by
  unfold updateStore
  have h2 : s.map (fun r => if r.username == u.username then applyMainUpdate now u gid r else r)
      = s.map id := by
    refine List.map_congr_left ?_
    intro r hr
    by_cases hb : (r.username == u.username) = true
    · rw [if_pos hb]
      exact h r hr hb
    · rw [if_neg hb]
      rfl
  rw [h2, List.map_id]

lemma updateGroupTime_eq_self (u : LegacyUser) (g : Option Nat) (s : List TargetUser)
    (h : ∀ r ∈ s, (r.username == u.username) = true → r.group_time = g) :
    updateGroupTime u g s = s := by
  unfold updateGroupTime
  have h2 : s.map (fun r => if r.username == u.username then { r with group_time := g } else r)
      = s.map id := by
    refine List.map_congr_left ?_
    intro r hr
    by_cases hb : (r.username == u.username) = true
    · rw [if_pos hb]
      exact TargetUser_set_group_time_self r g (h r hr hb)
    · rw [if_neg hb]
      rfl
  rw [h2, List.map_id]

/-- A step on a store whose matching rows already carry exactly the values
the update path would write is a no-op on the store. -/
lemma processUser_stable (now : Nat) (s : List TargetUser) (g : Option (Option Nat))
    (u : LegacyUser) (gv : Option Nat)
    (hc : (classify now u g).2 = some gv)
    (hpres : ∃ r ∈ s, r.username = u.username)
    (hfits : ∀ r ∈ s, r.username = u.username →
      applyMainUpdate now u (classify now u g).1 r = r ∧
      (gv.isSome = true → r.group_time = gv)) :
    processUser now s g u = Except.ok (s, some gv) := by
  obtain ⟨r1, hfo⟩ := Option.isSome_iff_exists.mp (show
      (s.find? (fun r => r.username == u.username)).isSome = true by
    rw [List.find?_isSome]
    obtain ⟨r, hr, hx⟩ := hpres
    exact ⟨r, hr, by simp [hx]⟩)
  have hus : updateStore now u (classify now u g).1 s = s :=
    updateStore_eq_self now u _ s
      (fun r hr hb => (hfits r hr (by simpa using hb)).1)
  simp only [processUser, hfo, hc, hus]
  by_cases hs : gv.isSome = true
  · rw [if_pos hs]
    have hug : updateGroupTime u gv s = s :=
      updateGroupTime_eq_self u gv s
        (fun r hr hb => (hfits r hr (by simpa using hb)).2 hs)
    rw [hug]
  · rw [if_neg hs]

/-- After a successful step, every row carrying the processed username holds
exactly the values the update path writes. -/
lemma processUser_fits (now : Nat) (s s' : List TargetUser)
    (g g' : Option (Option Nat)) (u : LegacyUser)
    (h : processUser now s g u = Except.ok (s', g')) :
    ∃ gv : Option Nat, (classify now u g).2 = some gv ∧ g' = some gv ∧
      ∀ r ∈ s', r.username = u.username →
        applyMainUpdate now u (classify now u g).1 r = r ∧
        (gv.isSome = true → r.group_time = gv) := by
  obtain ⟨gv, hc, hg', hcase⟩ := processUser_ok_cases now s s' g g' u h
  refine ⟨gv, hc, hg', ?_⟩
  intro r hr hrx
  rcases hcase with ⟨hfs, hcase2⟩ | ⟨hfn, rfl⟩
  · rcases hcase2 with ⟨hs, rfl⟩ | ⟨hs, rfl⟩
    · obtain ⟨r1, hr1, hre⟩ := List.mem_map.mp hr
      obtain ⟨r0, hr0, hre1⟩ := List.mem_map.mp hr1
      have hu1 : r.username = r1.username := by
        rw [← hre]
        exact if_gtime_username u gv r1
      have hu0 : r1.username = r0.username := by
        rw [← hre1]
        exact if_update_username now u _ r0
      have hr1u : (r1.username == u.username) = true := by
        rw [beq_iff_eq, ← hu1]
        exact hrx
      have hr0u : (r0.username == u.username) = true := by
        rw [beq_iff_eq, ← hu0, ← hu1]
        exact hrx
      have e1 : r1 = applyMainUpdate now u (classify now u g).1 r0 := by
        rw [← hre1, if_pos hr0u]
      have e0 : r = ({ r1 with group_time := gv } : TargetUser) := by
        rw [← hre, if_pos hr1u]
      constructor
      · rw [e0, e1]
        rfl
      · intro _
        rw [e0]
    · obtain ⟨r0, hr0, hre1⟩ := List.mem_map.mp hr
      have hu0 : r.username = r0.username := by
        rw [← hre1]
        exact if_update_username now u _ r0
      have hr0u : (r0.username == u.username) = true := by
        rw [beq_iff_eq, ← hu0]
        exact hrx
      have e1 : r = applyMainUpdate now u (classify now u g).1 r0 := by
        rw [← hre1, if_pos hr0u]
      constructor
      · rw [e1]
        rfl
      · intro hh
        rw [hs] at hh
        cases hh
  · rcases List.mem_append.mp hr with hrs | hrone
    · exfalso
      have := List.find?_eq_none.mp hfn r hrs
      simp [hrx] at this
    · have hre : r = insertedRow now u (classify now u g).1 gv :=
        List.mem_singleton.mp hrone
      constructor
      · rw [hre]
        rfl
      · intro _
        rw [hre]
        rfl

lemma reconcileLoop_cons_ok (now : Nat) (u : LegacyUser) (rest : List LegacyUser)
    (s s1 : List TargetUser) (g g1 : Option (Option Nat))
    (hpu : processUser now s g u = Except.ok (s1, g1)) :
    reconcileLoop now (u :: rest) s g = reconcileLoop now rest s1 g1 := by
  simp only [reconcileLoop, hpu]

lemma reconcileLoop_cons_err (now : Nat) (u : LegacyUser) (rest : List LegacyUser)
    (s : List TargetUser) (g : Option (Option Nat)) (e : String)
    (hpu : processUser now s g u = Except.error e) :
    reconcileLoop now (u :: rest) s g = Except.error e := by
  simp only [reconcileLoop, hpu]

/-- The loop keeps every already-present username present. -/
lemma reconcileLoop_presence (now : Nat) (x : String) :
    ∀ (users : List LegacyUser) (s s' : List TargetUser) (g : Option (Option Nat)),
    (∃ r ∈ s, r.username = x) →
    reconcileLoop now users s g = Except.ok s' →
    ∃ r ∈ s', r.username = x := by
  intro users
  induction users with
  | nil =>
      intro s s' g hp h
      simp only [reconcileLoop] at h
      injection h with h1
      rw [← h1]
      exact hp
  | cons u rest ih =>
      intro s s' g hp h
      rcases hpu : processUser now s g u with e | p
      · rw [reconcileLoop_cons_err now u rest s g e hpu] at h
        exact Except.noConfusion h
      · obtain ⟨s1, g1⟩ := p
        rw [reconcileLoop_cons_ok now u rest s s1 g g1 hpu] at h
        exact ih s1 s' g1 (processUser_presence now s s1 g g1 u x hp hpu) h

/-- The loop never touches rows of usernames outside the batch. -/
lemma reconcileLoop_frame (now : Nat) (x : String) :
    ∀ (users : List LegacyUser) (s s' : List TargetUser) (g : Option (Option Nat)),
    (∀ u ∈ users, u.username ≠ x) →
    reconcileLoop now users s g = Except.ok s' →
    s'.filter (fun r => r.username == x) = s.filter (fun r => r.username == x) := by
  intro users
  induction users with
  | nil =>
      intro s s' g _ h
      simp only [reconcileLoop] at h
      injection h with h1
      rw [← h1]
  | cons u rest ih =>
      intro s s' g hx h
      rcases hpu : processUser now s g u with e | p
      · rw [reconcileLoop_cons_err now u rest s g e hpu] at h
        exact Except.noConfusion h
      · obtain ⟨s1, g1⟩ := p
        rw [reconcileLoop_cons_ok now u rest s s1 g g1 hpu] at h
        rw [ih s1 s' g1 (fun v hv => hx v (List.mem_cons_of_mem u hv)) h]
        exact processUser_frame now s s1 g g1 u x (hx u (List.mem_cons_self u rest)) hpu

/-- Core induction: a second pass of the loop over the same batch, started
from the first pass's final store, reproduces that store. -/
lemma reconcileLoop_idem (now : Nat) :
    ∀ (users : List LegacyUser) (s s' : List TargetUser) (g : Option (Option Nat)),
    (users.map (fun u => u.username)).Nodup →
    reconcileLoop now users s g = Except.ok s' →
    reconcileLoop now users s' g = Except.ok s' := by
  intro users
  induction users with
  | nil =>
      intro s s' g _ _
      simp only [reconcileLoop]
  | cons u rest ih =>
      intro s s' g hnd h
      simp only [List.map_cons, List.nodup_cons] at hnd
      obtain ⟨hnotin, hnd'⟩ := hnd
      rcases hpu : processUser now s g u with e | p
      · rw [reconcileLoop_cons_err now u rest s g e hpu] at h
        exact Except.noConfusion h
      · obtain ⟨s1, g1⟩ := p
        rw [reconcileLoop_cons_ok now u rest s s1 g g1 hpu] at h
        obtain ⟨gv, hc, hg1, hfits1⟩ := processUser_fits now s s1 g g1 u hpu
        have hpres1 : ∃ r ∈ s1, r.username = u.username :=
          processUser_establishes now s s1 g g1 u hpu
        have hxne : ∀ v ∈ rest, v.username ≠ u.username := by
          intro v hv he
          exact hnotin (List.mem_map.mpr ⟨v, hv, he⟩)
        have hframe : s'.filter (fun r => r.username == u.username) =
            s1.filter (fun r => r.username == u.username) :=
          reconcileLoop_frame now u.username rest s1 s' g1 hxne h
        have hpres' : ∃ r ∈ s', r.username = u.username := by
          obtain ⟨r, hr, hrx⟩ := hpres1
          have hm : r ∈ s'.filter (fun r => r.username == u.username) := by
            rw [hframe]
            exact List.mem_filter.mpr ⟨hr, by simp [hrx]⟩
          exact ⟨r, (List.mem_filter.mp hm).1, hrx⟩
        have hfits' : ∀ r ∈ s', r.username = u.username →
            applyMainUpdate now u (classify now u g).1 r = r ∧
            (gv.isSome = true → r.group_time = gv) := by
          intro r hr hrx
          have hm : r ∈ s'.filter (fun r => r.username == u.username) :=
            List.mem_filter.mpr ⟨hr, by simp [hrx]⟩
          rw [hframe] at hm
          exact hfits1 r (List.mem_filter.mp hm).1 hrx
        have hstep := processUser_stable now s' g u gv hc hpres' hfits'
        rw [hg1] at h
        rw [reconcileLoop_cons_ok now u rest s' s' g (some gv) hstep]
        exact ih s1 s' (some gv) hnd' h

/-- After a successful pass every account of the batch has a matching target
row, so a second pass takes the update path for every account. -/
lemma reconcileLoop_presence_all (now : Nat) :
    ∀ (users : List LegacyUser) (s s' : List TargetUser) (g : Option (Option Nat)),
    reconcileLoop now users s g = Except.ok s' →
    ∀ u ∈ users, ∃ r ∈ s', r.username = u.username := by
  intro users
  induction users with
  | nil =>
      intro s s' g _ u hu
      exact absurd hu (List.not_mem_nil u)
  | cons v rest ih =>
      intro s s' g h u hu
      rcases hpu : processUser now s g v with e | p
      · rw [reconcileLoop_cons_err now v rest s g e hpu] at h
        exact Except.noConfusion h
      · obtain ⟨s1, g1⟩ := p
        rw [reconcileLoop_cons_ok now v rest s s1 g g1 hpu] at h
        rcases List.mem_cons.mp hu with rfl | hu'
        · exact reconcileLoop_presence now u.username rest s1 s' g1
            (processUser_establishes now s s1 g g1 u hpu) h
        · exact ih s1 s' g1 h u hu'

/-- C5: with the legacy snapshot's usernames unique (its key invariant) and
a fixed evaluation time, re-running the reconciliation loop on its own
output reproduces that output exactly — the second run finds every account
already present (update path) and re-applies identical values, leaving the
store, credentials included, unchanged. -/
theorem spec_C5_idempotent (now : Nat) (users : List LegacyUser)
    (s0 s1 : List TargetUser)
    (husers : (users.map (fun u => u.username)).Nodup)
    (h1 : reconcileLoop now users s0 none = Except.ok s1) :
    reconcileLoop now users s1 none = Except.ok s1 ∧
    ∀ u ∈ users, ∃ r ∈ s1, r.username = u.username :=
  ⟨reconcileLoop_idem now users s0 s1 none husers h1,
   reconcileLoop_presence_all now users s0 s1 none h1⟩

def c5_user : LegacyUser := ⟨"zoe", some "normal", none, some 0, none, none, none, none, none⟩

/-- C5 witness: a one-account snapshot inserted on the first run is
reproduced unchanged by a second run, which finds the account present. -/
theorem spec_C5_idempotent_witness :
    reconcileLoop 7 [c5_user] [insertedRow 7 c5_user 1 none] none =
      Except.ok [insertedRow 7 c5_user 1 none] ∧
    ∀ u ∈ [c5_user], ∃ r ∈ [insertedRow 7 c5_user 1 none], r.username = u.username :=
  spec_C5_idempotent 7 [c5_user] [] [insertedRow 7 c5_user 1 none] (by decide) rfl
